import Mathlib

/-!
Verification of the detection core of the self-service-inspection repository.

The development shallowly embeds, over exact real arithmetic:
* the similarity engine of the detection-mode worker
  (`classify`, `updateLabels` in the vision-classifier worker): image-vector
  normalization, cosine similarities against the label embedding matrix,
  temperature-scaled softmax, stable descending sort, and the detection rule;
* the legacy worker's numerically-stable softmax variant, for comparison;
* the frame-driven detection state machine of the inspection camera
  component (sustained detection, countdown entry and cancellation);
* the worker initialization lifecycle (idempotent `initialize`) and the
  main-thread hook's drop-not-queue classification gate.

The vision encoder itself is opaque in the source (an external model); the
embedding takes the image embedding vector it produces as the input.
JavaScript `Array.prototype.sort` is guaranteed stable, so the sort of the
score list is modelled by a stable descending insertion sort.
-/

namespace Inspection

noncomputable section

/-- One entry of the per-label score list built in the worker's `classify`
(`{ label, score }`). -/
structure LabeledScore where
  label : String
  score : ℝ

/-- The `detection` message payload posted by the worker in detection mode. -/
structure DetectionResult where
  targetLabel : String
  targetScore : ℝ
  isDetected : Bool
  allScores : List LabeledScore

/-- Dot product of two vectors, as accumulated by the inner loop of
`classify` (`dotProduct += normalizedImageVal * labelVal`). -/
def dotProduct (xs ys : List ℝ) : ℝ :=
  (List.zipWith (fun a b => a * b) xs ys).sum

/-- Sum of squares accumulated by the norm loop of `classify`
(`imageNorm += imageEmbedding[i] * imageEmbedding[i]`). -/
def sumSquares (v : List ℝ) : ℝ :=
  (v.map (fun x => x * x)).sum

/-- The image-embedding L2 norm computed in `classify`
(`imageNorm = Math.sqrt(imageNorm)`). -/
def imageNormOf (v : List ℝ) : ℝ :=
  Real.sqrt (sumSquares v)

/-- Division of every component by the norm, as done inside the similarity
loop (`imageEmbedding[j] / imageNorm`). -/
def normalizeBy (norm : ℝ) (v : List ℝ) : List ℝ :=
  v.map (fun x => x / norm)

/-- The raw cosine similarities: dot product of the normalized image vector
against every row of the label embedding matrix. -/
def rawScores (rows : List (List ℝ)) (img : List ℝ) : List ℝ :=
  rows.map (fun row => dotProduct img row)

/-- Temperature resolution in the detection worker: models stored as
log-scale are exponentiated (`logitScale < 5 ? Math.exp(logitScale) :
logitScale`). -/
def actualScale (logitScale : ℝ) : ℝ :=
  if logitScale < 5 then Real.exp logitScale else logitScale

/-- The exponentiated scores of the detection worker's softmax:
`rawScores.map(score => Math.exp(score * actualScale))` — the maximum is
not subtracted before exponentiating. -/
def expScores (scale : ℝ) (raw : List ℝ) : List ℝ :=
  raw.map (fun s => Real.exp (s * scale))

/-- The softmax probabilities of the detection worker:
`expScores.map(s => s / totalScore)` with `totalScore` the sum of
`expScores`. -/
def probabilities (scale : ℝ) (raw : List ℝ) : List ℝ :=
  (expScores scale raw).map (fun s => s / (expScores scale raw).sum)

/-- The scaled scores of the legacy worker's softmax
(`rawScores.map(s => s * temperature)`). -/
def scaledScores (temperature : ℝ) (raw : List ℝ) : List ℝ :=
  raw.map (fun s => s * temperature)

/-- Maximum of a list of reals (`Math.max(...scaledScores)` on a nonempty
list). -/
def maxScore (l : List ℝ) : ℝ :=
  l.foldr max (l.headD 0)

/-- The legacy worker's numerically-stable exponentiated scores
(`scaledScores.map(s => Math.exp(s - maxScore))`), the form the spec
describes for the detection path as well. -/
def stableExpScores (temperature : ℝ) (raw : List ℝ) : List ℝ :=
  (scaledScores temperature raw).map
    (fun s => Real.exp (s - maxScore (scaledScores temperature raw)))

/-- Stable insertion of one labeled score into a descending list: an element
is placed before the first strictly smaller-or-equal score, so equal scores
keep their original relative order, exactly like the stable JavaScript
`sort((a, b) => b.score - a.score)`. -/
def insertDesc (a : LabeledScore) : List LabeledScore → List LabeledScore
  | [] => [a]
  | b :: l => if b.score ≤ a.score then a :: b :: l else b :: insertDesc a l

/-- Stable descending sort of the score list, modelling
`[...scores].sort((a, b) => b.score - a.score)`. -/
def sortByScoreDesc (l : List LabeledScore) : List LabeledScore :=
  l.foldr insertDesc []

/-- The label matrix built by the worker's `updateLabels`: the target label
and embedding first, the negative labels after
(`[{label: targetLabel, embedding: targetEmbedding}, ...negativeLabels]`). -/
def updateLabels (targetLabel : String) (targetEmbedding : List ℝ)
    (negativeLabels : List (String × List ℝ)) : List (String × List ℝ) :=
  (targetLabel, targetEmbedding) :: negativeLabels

/-- The probability vector computed inside the detection worker's `classify`
for a given label matrix and image embedding. -/
def classifyProbs (labels : List (String × List ℝ)) (logitScale : ℝ)
    (img : List ℝ) : List ℝ :=
  probabilities (actualScale logitScale)
    (rawScores (labels.map Prod.snd) (normalizeBy (imageNormOf img) img))

/-- The labeled score list of `classify`
(`labelNames.map((label, i) => ({label, score: probabilities[i]}))`). -/
def scoresOf (labels : List (String × List ℝ)) (logitScale : ℝ)
    (img : List ℝ) : List LabeledScore :=
  List.zipWith (fun (l : String × List ℝ) (p : ℝ) => LabeledScore.mk l.1 p)
    labels (classifyProbs labels logitScale img)

/-- The detection payload assembled by `classify` in detection mode:
`targetScore` is `scores[0]?.score || 0`, `isTargetTopMatch` compares the
head of the sorted list against the target label, `isAboveThreshold` is
`targetScore >= detectionThreshold`, and `allScores` is the top five of the
sorted list. -/
def detectionOf (labels : List (String × List ℝ)) (targetLabel : String)
    (detectionThreshold logitScale : ℝ) (img : List ℝ) : DetectionResult :=
  { targetLabel := targetLabel
    targetScore :=
      ((scoresOf labels logitScale img).headD (LabeledScore.mk targetLabel 0)).score
    isDetected :=
      (match (sortByScoreDesc (scoresOf labels logitScale img)).head? with
        | none => false
        | some top => top.label == targetLabel)
      && decide (detectionThreshold ≤
          ((scoresOf labels logitScale img).headD (LabeledScore.mk targetLabel 0)).score)
    allScores := (sortByScoreDesc (scoresOf labels logitScale img)).take 5 }

/-- The detection worker's `classify` in detection mode: a zero-norm image
embedding is rejected before any score is computed (`if (imageNorm === 0)
... return;` — nothing is posted), otherwise exactly one `detection`
message is posted. -/
def classify (labels : List (String × List ℝ)) (targetLabel : String)
    (detectionThreshold logitScale : ℝ) (imageEmbedding : List ℝ) :
    Option DetectionResult :=
  if imageNormOf imageEmbedding = 0 then none
  else some (detectionOf labels targetLabel detectionThreshold logitScale imageEmbedding)

end

/-- The inspection phases of the store (`InspectionPhase`). -/
inductive InspectionPhase
  | loading
  | modelLoading
  | detecting
  | countdown
  | capturing
  | uploading
  | complete
  | error
deriving DecidableEq, Repr

/-- The sustained-detection window (`SUSTAINED_DETECTION_MS = 1000`). -/
def SUSTAINED_DETECTION_MS : ℤ := 1000

/-- The detection-relevant state of the inspection camera component: the
store phase and the sustaining start timestamp (`sustainedStartRef`),
in milliseconds. -/
structure CameraState where
  phase : InspectionPhase
  sustainedStart : Option ℤ
deriving DecidableEq, Repr

/-- One detection result arriving at the inspection camera component at
wall-clock time `now`, combining the detection-results effect (record the
sustaining start on the first detected frame, enter countdown once the
elapsed time reaches the window, reset the start on a non-detected frame;
the effect returns early unless the phase is `detecting`) with the
countdown-cancellation effect (a non-detected frame during an active
countdown returns the machine to `detecting` and clears the start). -/
def onDetection (s : CameraState) (isDetected : Bool) (now : ℤ) : CameraState :=
  let s1 :=
    if s.phase = InspectionPhase.detecting then
      if isDetected then
        let start := s.sustainedStart.getD now
        if SUSTAINED_DETECTION_MS ≤ now - start then
          { phase := InspectionPhase.countdown, sustainedStart := some start }
        else
          { phase := InspectionPhase.detecting, sustainedStart := some start }
      else
        { phase := InspectionPhase.detecting, sustainedStart := none }
    else s
  if s1.phase = InspectionPhase.countdown ∧ isDetected = false then
    { phase := InspectionPhase.detecting, sustainedStart := none }
  else s1

/-- Run the camera state machine over a stream of `(isDetected, timestamp)`
frames. -/
def runDetections (s : CameraState) (frames : List (Bool × ℤ)) : CameraState :=
  frames.foldl (fun st f => onDetection st f.1 f.2) s

/-- A synthetic stream of `k` detected frames spaced `dt` milliseconds
apart, the first arriving at time `t0`. -/
def trueStream (k : ℕ) (dt t0 : ℤ) : List (Bool × ℤ) :=
  (List.range k).map (fun (i : ℕ) => (true, t0 + (i : ℤ) * dt))

/-- The store's detection state touched by `updateDetection`: the phase,
the store's own detected flag and its sustaining timestamp
(`sustainedDetectionStart`). The `currentScore` display field is omitted
(it never feeds back into any transition). -/
structure StoreState where
  phase : InspectionPhase
  isDetected : Bool
  sustainedDetectionStart : Option ℤ
deriving DecidableEq, Repr

noncomputable section

/-- The store's `updateDetection(score, threshold)`: detection is
re-derived as `score >= threshold` — the worker's `isDetected` flag is not
consulted here. On a detected score it records the sustaining start (first
frame) or, once the elapsed time from the recorded start reaches the
window while the phase is `detecting`, sets the phase to `countdown`; on a
non-detected score it clears the flag and the start and, from `countdown`,
returns to `detecting`. JavaScript `state.sustainedDetectionStart || now`
treats both `null` and the timestamp `0` as absent. -/
def updateDetection (s : StoreState) (score threshold : ℝ) (now : ℤ) :
    StoreState :=
  if threshold ≤ score then
    if s.isDetected = false then
      { s with isDetected := true, sustainedDetectionStart := some now }
    else
      let startTime :=
        match s.sustainedDetectionStart with
        | none => now
        | some t => if t = 0 then now else t
      if SUSTAINED_DETECTION_MS ≤ now - startTime ∧
          s.phase = InspectionPhase.detecting then
        { s with phase := InspectionPhase.countdown }
      else s
  else
    let s2 := { s with isDetected := false, sustainedDetectionStart := none }
    if s.phase = InspectionPhase.countdown then
      { s2 with phase := InspectionPhase.detecting }
    else s2

/-- The combined detection state of the inspection camera component and
the store: the store state, the component's `sustainedStartRef`, and
whether the component's countdown hook is actively running
(`countdownActive` — set only by the component's `startCountdown`, not by
the store's phase write). -/
structure MachineState where
  store : StoreState
  sustainedStartRef : Option ℤ
  countdownActive : Bool
deriving DecidableEq, Repr

/-- One detection result arriving at the inspection camera component at
time `now`, with the worker's `isDetected` flag and `targetScore`,
combining the detection-results effect — which returns early unless the
store phase is `detecting`, records the ref on the first detected frame,
always calls the store's `updateDetection` with the score and threshold,
and on `elapsed ≥ sustainedMs` sets the phase to `countdown` and starts
the countdown hook — with the countdown-cancellation effect, which on a
non-detected frame during an active countdown cancels it, returns the
phase to `detecting` and clears the ref (the store's own tracker is not
updated there). -/
def onDetectionFull (s : MachineState) (isDetected : Bool)
    (targetScore threshold : ℝ) (now : ℤ) : MachineState :=
  let s1 :=
    if s.store.phase = InspectionPhase.detecting then
      if isDetected then
        let ref := s.sustainedStartRef.getD now
        let afterStore := updateDetection s.store targetScore threshold now
        if SUSTAINED_DETECTION_MS ≤ now - ref then
          { store := { afterStore with phase := InspectionPhase.countdown }
            sustainedStartRef := some ref
            countdownActive := true }
        else
          { store := afterStore
            sustainedStartRef := some ref
            countdownActive := s.countdownActive }
      else
        { store := updateDetection s.store targetScore threshold now
          sustainedStartRef := none
          countdownActive := s.countdownActive }
    else s
  if s1.countdownActive = true ∧ isDetected = false then
    { store := { s1.store with phase := InspectionPhase.detecting }
      sustainedStartRef := none
      countdownActive := false }
  else s1

end

/-- Messages the worker posts while initializing. -/
inductive InitMsg
  | ready
  | error
deriving DecidableEq, Repr

/-- The worker-side executor state relevant to `initialize`: the two guard
flags plus a counter of how many times the model load was started (the
load-count observable of the spec's test scenario). -/
structure ExecutorState where
  isInitialized : Bool
  isInitializing : Bool
  loadCount : ℕ
deriving DecidableEq, Repr

/-- The executor state of a freshly created worker. -/
def initialExecutorState : ExecutorState :=
  { isInitialized := false, isInitializing := false, loadCount := 0 }

/-- The synchronous prefix of the worker's `initialize`: if already
initialized it just re-posts `ready`; if an initialization is in flight it
returns without posting or loading; otherwise it sets the in-flight flag
and starts the (asynchronous) model load. -/
def initializeCall (s : ExecutorState) : ExecutorState × List InitMsg :=
  if s.isInitialized || s.isInitializing then
    (s, if s.isInitialized then [InitMsg.ready] else [])
  else
    ({ s with isInitializing := true, loadCount := s.loadCount + 1 }, [])

/-- Completion of the awaited model load: the `try` tail posts `ready` and
marks the executor initialized; the `catch` clears the in-flight flag and
posts `error`. The posted message is broadcast to every listener on the
worker's message channel. -/
def loadComplete (s : ExecutorState) (success : Bool) : ExecutorState × List InitMsg :=
  if success then
    ({ s with isInitialized := true, isInitializing := false }, [InitMsg.ready])
  else
    ({ s with isInitializing := false }, [InitMsg.error])

/-- The spec's two-concurrent-callers scenario: two `initialize` requests
are processed before the model load resolves, then the load completes.
Returns the final executor state and every message posted on the shared
channel, in order. -/
def twoCallerTrace (success : Bool) : ExecutorState × List InitMsg :=
  let r1 := initializeCall initialExecutorState
  let r2 := initializeCall r1.1
  let r3 := loadComplete r2.1 success
  (r3.1, r1.2 ++ r2.2 ++ r3.2)

/-- The main-thread hook state relevant to the classify gate: the
labels-ready flag and the in-flight flag (`inferringRef`). -/
structure HookState where
  isReady : Bool
  inferring : Bool
deriving DecidableEq, Repr

/-- The hook's `classify` callback: if not ready, or a classification is
already in flight, the request returns without posting anything (dropped,
not queued); otherwise it marks a classification in flight and posts one
`classify` message. The boolean reports whether a message was sent. -/
def classifyCall (s : HookState) : HookState × Bool :=
  if !s.isReady || s.inferring then (s, false)
  else ({ s with inferring := true }, true)

/-- Arrival of a `detection` result message: the in-flight flag is
cleared. -/
def onDetectionMsg (s : HookState) : HookState :=
  { s with inferring := false }

/-- Events at the hook: a frame-capture classify request, or a worker
response. -/
inductive HookEvent
  | request
  | response
deriving DecidableEq, Repr

/-- Step of the hook together with the number of classification requests
currently in flight at the worker (sent and not yet answered). -/
def hookStep : HookState × ℕ → HookEvent → HookState × ℕ
  | (s, n), HookEvent.request =>
      let r := classifyCall s
      (r.1, if r.2 then n + 1 else n)
  | (s, n), HookEvent.response => (onDetectionMsg s, n - 1)

/-- Run the hook from the ready, idle state over a sequence of events,
tracking the in-flight count. -/
def runHook (events : List HookEvent) : HookState × ℕ :=
  events.foldl hookStep ({ isReady := true, inferring := false }, 0)

theorem length_expScores (c : ℝ) (raw : List ℝ) :
    (expScores c raw).length = raw.length := by
  simp [expScores]

theorem length_probabilities (c : ℝ) (raw : List ℝ) :
    (probabilities c raw).length = raw.length := by
  simp [probabilities, expScores]

theorem length_rawScores (rows : List (List ℝ)) (img : List ℝ) :
    (rawScores rows img).length = rows.length := by
  simp [rawScores]

theorem length_classifyProbs (labels : List (String × List ℝ)) (ls : ℝ)
    (img : List ℝ) : (classifyProbs labels ls img).length = labels.length := by
  simp [classifyProbs, length_probabilities, length_rawScores]

theorem mem_insertDesc {x a : LabeledScore} {l : List LabeledScore} :
    x ∈ insertDesc a l ↔ x = a ∨ x ∈ l := by
  induction l with
  | nil => simp [insertDesc]
  | cons b t ih =>
    by_cases h : b.score ≤ a.score
    · simp [insertDesc, h]
    · simp only [insertDesc, if_neg h, List.mem_cons, ih]
      tauto

theorem mem_sortByScoreDesc {x : LabeledScore} {l : List LabeledScore} :
    x ∈ sortByScoreDesc l ↔ x ∈ l := by
  induction l with
  | nil => simp [sortByScoreDesc]
  | cons a t ih =>
    show x ∈ insertDesc a (sortByScoreDesc t) ↔ _
    rw [mem_insertDesc]
    simp only [List.mem_cons, ih]

theorem insertDesc_of_le {a : LabeledScore} {l : List LabeledScore}
    (h : ∀ x ∈ l, x.score ≤ a.score) : insertDesc a l = a :: l := by
  cases l with
  | nil => rfl
  | cons b t => simp [insertDesc, h b (by simp)]

theorem sortByScoreDesc_cons_of_max {a : LabeledScore} {t : List LabeledScore}
    (h : ∀ x ∈ t, x.score ≤ a.score) :
    sortByScoreDesc (a :: t) = a :: sortByScoreDesc t := by
  show insertDesc a (sortByScoreDesc t) = _
  exact insertDesc_of_le (fun x hx => h x (mem_sortByScoreDesc.mp hx))

theorem sortByScoreDesc_head_max (l : List LabeledScore) (hl : l ≠ []) :
    ∃ b t2, sortByScoreDesc l = b :: t2 ∧ b ∈ l ∧ ∀ x ∈ l, x.score ≤ b.score := by
  induction l with
  | nil => exact absurd rfl hl
  | cons a t ih =>
    cases t with
    | nil => exact ⟨a, [], rfl, by simp, by simp⟩
    | cons c t3 =>
      obtain ⟨b, t2, hsort, hbmem, hbmax⟩ := ih (by simp)
      by_cases hba : b.score ≤ a.score
      · refine ⟨a, b :: t2, ?_, by simp, ?_⟩
        · show insertDesc a (sortByScoreDesc (c :: t3)) = a :: b :: t2
          rw [hsort, insertDesc, if_pos hba]
        · intro x hx
          rcases List.mem_cons.mp hx with rfl | hx
          · exact le_refl _
          · exact le_trans (hbmax x hx) hba
      · refine ⟨b, insertDesc a t2, ?_, List.mem_cons_of_mem a hbmem, ?_⟩
        · show insertDesc a (sortByScoreDesc (c :: t3)) = b :: insertDesc a t2
          rw [hsort, insertDesc, if_neg hba]
        · intro x hx
          rcases List.mem_cons.mp hx with rfl | hx
          · exact le_of_lt (not_le.mp hba)
          · exact hbmax x hx

theorem zip_label_mem {L : List (String × List ℝ)} {P : List ℝ} {x : LabeledScore}
    (hx : x ∈ List.zipWith
      (fun (l : String × List ℝ) (p : ℝ) => LabeledScore.mk l.1 p) L P) :
    x.label ∈ L.map Prod.fst := by
  induction L generalizing P with
  | nil => simp at hx
  | cons a L2 ih =>
    cases P with
    | nil => simp at hx
    | cons p P2 =>
      rcases List.mem_cons.mp hx with rfl | hx
      · simp
      · exact List.mem_cons_of_mem _ (ih hx)

theorem zip_score_mem {L : List (String × List ℝ)} {P : List ℝ} {x : LabeledScore}
    (hx : x ∈ List.zipWith
      (fun (l : String × List ℝ) (p : ℝ) => LabeledScore.mk l.1 p) L P) :
    x.score ∈ P := by
  induction L generalizing P with
  | nil => simp at hx
  | cons a L2 ih =>
    cases P with
    | nil => simp at hx
    | cons p P2 =>
      rcases List.mem_cons.mp hx with rfl | hx
      · simp
      · exact List.mem_cons_of_mem _ (ih hx)

theorem zip_score_surj {L : List (String × List ℝ)} {P : List ℝ}
    (hlen : L.length = P.length) {q : ℝ} (hq : q ∈ P) :
    ∃ x ∈ List.zipWith
      (fun (l : String × List ℝ) (p : ℝ) => LabeledScore.mk l.1 p) L P,
      x.score = q := by
  induction L generalizing P with
  | nil =>
    cases P with
    | nil => simp at hq
    | cons p P2 => simp at hlen
  | cons a L2 ih =>
    cases P with
    | nil => simp at hq
    | cons p P2 =>
      rcases List.mem_cons.mp hq with rfl | hq
      · exact ⟨LabeledScore.mk a.1 q, by simp, rfl⟩
      · obtain ⟨x, hx1, hx2⟩ := ih (by simpa using hlen) hq
        exact ⟨x, List.mem_cons_of_mem _ hx1, hx2⟩

theorem sum_map_div (l : List ℝ) (b : ℝ) :
    (l.map (fun x => x / b)).sum = l.sum / b := by
  induction l with
  | nil => simp
  | cons a t ih => simp [ih, add_div]

theorem expScores_pos {c : ℝ} {raw : List ℝ} {x : ℝ} (hx : x ∈ expScores c raw) :
    0 < x := by
  simp only [expScores, List.mem_map] at hx
  obtain ⟨s, _, rfl⟩ := hx
  exact Real.exp_pos _

theorem expScores_sum_pos (c : ℝ) (raw : List ℝ) (h : raw ≠ []) :
    0 < (expScores c raw).sum := by
  apply List.sum_pos
  · exact fun x hx => expScores_pos hx
  · simp [expScores, h]

theorem probabilities_sum_eq_one (c : ℝ) (raw : List ℝ) (h : raw ≠ []) :
    (probabilities c raw).sum = 1 := by
  unfold probabilities
  rw [sum_map_div]
  exact div_self (ne_of_gt (expScores_sum_pos c raw h))

theorem probabilities_singleton (c x : ℝ) : probabilities c [x] = [1] := by
  simp [probabilities, expScores, div_self, Real.exp_ne_zero]

/-- C5 (amended): for every label matrix with at least one row and every
image vector with nonzero norm, `classify` computes the softmax directly —
exponentiating the temperature-scaled similarities without subtracting the
row maximum — and the resulting probabilities sum to exactly 1 over exact
arithmetic. -/
theorem classifyProbs_sum_one (labels : List (String × List ℝ)) (ls : ℝ)
    (img : List ℝ) (hl : labels ≠ []) (_hn : imageNormOf img ≠ 0) :
    (classifyProbs labels ls img).sum = 1 := by
  unfold classifyProbs
  apply probabilities_sum_eq_one
  simp [rawScores, hl]

/-- Witness for C5's amended theorem. -/
theorem classifyProbs_sum_one_witness :
    (classifyProbs [("a", [1])] 100 [1]).sum = 1 :=
  classifyProbs_sum_one [("a", [1])] 100 [1] (by simp)
    (by norm_num [imageNormOf, sumSquares, Real.sqrt_one])

/-- C5 counterexample: the detection worker's softmax does not use the
numerically-stable form: its exponentiated scores differ from the
subtract-the-maximum form already on the raw similarity list `[1, 0]` at
temperature 100 (the stable form's first entry is `exp 0`, the code's is
`exp 100`). -/
theorem softmax_not_stable_form :
    stableExpScores 100 [1, 0] ≠ expScores 100 [1, 0] := by
  have hmax : maxScore [(100 : ℝ), 0] = 100 := by
    show max 100 (max 0 100) = 100
    rw [max_eq_right (by norm_num : (0 : ℝ) ≤ 100), max_self]
  have hs : scaledScores 100 [(1 : ℝ), 0] = [100, 0] := by
    simp only [scaledScores, List.map_cons, List.map_nil]
    norm_num
  have h1 : stableExpScores 100 [(1 : ℝ), 0] = [Real.exp 0, Real.exp (-100)] := by
    simp only [stableExpScores, hs, hmax, List.map_cons, List.map_nil]
    norm_num
  have h2 : expScores 100 [(1 : ℝ), 0] = [Real.exp 100, Real.exp 0] := by
    simp only [expScores, List.map_cons, List.map_nil]
    norm_num
  intro h
  rw [h1, h2] at h
  simp only [List.cons.injEq] at h
  have h0 : (0 : ℝ) = 100 := Real.exp_eq_exp.mp h.1
  norm_num at h0

theorem sumSquares_scale (c : ℝ) (v : List ℝ) :
    sumSquares (v.map (fun x => c * x)) = c ^ 2 * sumSquares v := by
  induction v with
  | nil => simp [sumSquares]
  | cons a t ih =>
    simp only [sumSquares, List.map_cons, List.sum_cons] at ih ⊢
    rw [ih]
    ring

theorem imageNormOf_scale {c : ℝ} (hc : 0 < c) (v : List ℝ) :
    imageNormOf (v.map (fun x => c * x)) = c * imageNormOf v := by
  unfold imageNormOf
  rw [sumSquares_scale, Real.sqrt_mul (sq_nonneg c), Real.sqrt_sq hc.le]

theorem normalizeBy_scale {c : ℝ} (n : ℝ) (hc : c ≠ 0) (v : List ℝ) :
    normalizeBy (c * n) (v.map (fun x => c * x)) = normalizeBy n v := by
  unfold normalizeBy
  rw [List.map_map]
  congr 1
  funext x
  simp only [Function.comp_apply]
  exact mul_div_mul_left x n hc

theorem classifyProbs_scale_invariant (labels : List (String × List ℝ)) (ls : ℝ)
    (img : List ℝ) {c : ℝ} (hc : 0 < c) :
    classifyProbs labels ls (img.map (fun x => c * x)) =
      classifyProbs labels ls img := by
  unfold classifyProbs
  rw [imageNormOf_scale hc, normalizeBy_scale (imageNormOf img) (ne_of_gt hc)]

/-- C9: scaling the raw image vector by any positive scalar yields an
identical detection result — the image vector is normalized to unit norm
before the similarity computation, so the whole `DetectionScore`
(targetScore, isDetected and the ranked scores) is unchanged. -/
theorem classify_scale_invariant (labels : List (String × List ℝ)) (tl : String)
    (th ls : ℝ) (img : List ℝ) (c : ℝ) (hc : 0 < c) :
    classify labels tl th ls (img.map (fun x => c * x)) =
      classify labels tl th ls img := by
  have hscores : scoresOf labels ls (img.map (fun x => c * x)) =
      scoresOf labels ls img := by
    unfold scoresOf
    rw [classifyProbs_scale_invariant labels ls img hc]
  unfold classify
  rw [imageNormOf_scale hc]
  by_cases hn : imageNormOf img = 0
  · rw [hn, mul_zero]
    simp
  · rw [if_neg (mul_ne_zero (ne_of_gt hc) hn), if_neg hn]
    unfold detectionOf
    rw [hscores]

/-- Witness for C9: doubling a concrete image vector leaves the result
unchanged. -/
theorem classify_scale_invariant_witness :
    classify [("a", [1])] "a" (1 / 2) 100 ([1].map (fun x => (2 : ℝ) * x)) =
      classify [("a", [1])] "a" (1 / 2) 100 [1] :=
  classify_scale_invariant [("a", [1])] "a" (1 / 2) 100 [1] 2 (by norm_num)

theorem imageNormOf_one : imageNormOf [(1 : ℝ)] = 1 := by
  norm_num [imageNormOf, sumSquares, Real.sqrt_one]

theorem imageNormOf_one_ne_zero : imageNormOf [(1 : ℝ)] ≠ 0 := by
  rw [imageNormOf_one]
  norm_num

theorem scoresOf_single (tl : String) (te : List ℝ) (ls : ℝ) (img : List ℝ) :
    scoresOf (updateLabels tl te []) ls img = [LabeledScore.mk tl 1] := by
  unfold scoresOf classifyProbs updateLabels
  simp only [List.map_cons, List.map_nil, rawScores, probabilities_singleton]
  rfl

/-- C10: with no negative labels (a one-row embedding matrix) the softmax
probability at index 0 is exactly 1 for every nonzero-norm image vector, so
`targetScore` is 1 and the frame is detected whenever the threshold is at
most 1 — the threshold test can never reject a frame in this
configuration. -/
theorem single_label_always_detected (tl : String) (te : List ℝ) (th ls : ℝ)
    (img : List ℝ) (hn : imageNormOf img ≠ 0) (hth : th ≤ 1) :
    ∃ r, classify (updateLabels tl te []) tl th ls img = some r ∧
      r.targetScore = 1 ∧ r.isDetected = true := by
  refine ⟨detectionOf (updateLabels tl te []) tl th ls img,
    by simp [classify, hn], ?_, ?_⟩
  · unfold detectionOf
    rw [scoresOf_single]
    rfl
  · unfold detectionOf
    rw [scoresOf_single]
    simp [sortByScoreDesc, insertDesc, hth]

/-- Witness for C10. -/
theorem single_label_always_detected_witness :
    ∃ r, classify (updateLabels "a" [1] []) "a" (1 / 2) 100 [1] = some r ∧
      r.targetScore = 1 ∧ r.isDetected = true :=
  single_label_always_detected "a" [1] (1 / 2) 100 [1] imageNormOf_one_ne_zero
    (by norm_num)

theorem classifyProbs_updateLabels_cons (tl : String) (te : List ℝ)
    (negs : List (String × List ℝ)) (ls : ℝ) (img : List ℝ) :
    ∃ p0 pt, classifyProbs (updateLabels tl te negs) ls img = p0 :: pt ∧
      pt.length = negs.length := by
  have hlen := length_classifyProbs (updateLabels tl te negs) ls img
  cases hcp : classifyProbs (updateLabels tl te negs) ls img with
  | nil =>
    rw [hcp] at hlen
    simp [updateLabels] at hlen
  | cons p0 pt =>
    refine ⟨p0, pt, rfl, ?_⟩
    rw [hcp] at hlen
    simpa [updateLabels] using hlen

theorem scoresOf_updateLabels_cons (tl : String) (te : List ℝ)
    (negs : List (String × List ℝ)) (ls : ℝ) (img : List ℝ) {p0 : ℝ}
    {pt : List ℝ}
    (hp : classifyProbs (updateLabels tl te negs) ls img = p0 :: pt) :
    scoresOf (updateLabels tl te negs) ls img =
      LabeledScore.mk tl p0 :: List.zipWith
        (fun (l : String × List ℝ) (p : ℝ) => LabeledScore.mk l.1 p) negs pt := by
  unfold scoresOf
  rw [hp]
  rfl

theorem detectionOf_targetScore_eq (tl : String) (te : List ℝ)
    (negs : List (String × List ℝ)) (th ls : ℝ) (img : List ℝ) :
    (detectionOf (updateLabels tl te negs) tl th ls img).targetScore =
      (classifyProbs (updateLabels tl te negs) ls img).headD 0 := by
  obtain ⟨p0, pt, hp, -⟩ := classifyProbs_updateLabels_cons tl te negs ls img
  unfold detectionOf
  rw [scoresOf_updateLabels_cons tl te negs ls img hp, hp]
  rfl

theorem detectionOf_isDetected_target_max (tl : String) (te : List ℝ)
    (negs : List (String × List ℝ)) (th ls : ℝ) (img : List ℝ)
    (hmax : ∀ q ∈ classifyProbs (updateLabels tl te negs) ls img,
        q ≤ (classifyProbs (updateLabels tl te negs) ls img).headD 0) :
    (detectionOf (updateLabels tl te negs) tl th ls img).isDetected =
      decide (th ≤ (classifyProbs (updateLabels tl te negs) ls img).headD 0) := by
  obtain ⟨p0, pt, hp, hlen⟩ := classifyProbs_updateLabels_cons tl te negs ls img
  have hscores := scoresOf_updateLabels_cons tl te negs ls img hp
  have htail : ∀ x ∈ List.zipWith
      (fun (l : String × List ℝ) (p : ℝ) => LabeledScore.mk l.1 p) negs pt,
      x.score ≤ (LabeledScore.mk tl p0).score := by
    intro x hx
    have hxp : x.score ∈ pt := zip_score_mem hx
    have hle := hmax x.score (by rw [hp]; exact List.mem_cons_of_mem _ hxp)
    rw [hp] at hle
    simpa using hle
  have hsort : sortByScoreDesc (scoresOf (updateLabels tl te negs) ls img) =
      LabeledScore.mk tl p0 :: sortByScoreDesc (List.zipWith
        (fun (l : String × List ℝ) (p : ℝ) => LabeledScore.mk l.1 p) negs pt) := by
    rw [hscores]
    exact sortByScoreDesc_cons_of_max htail
  unfold detectionOf
  rw [hsort, hscores, hp]
  simp

theorem detectionOf_not_detected_of_beaten (tl : String) (te : List ℝ)
    (negs : List (String × List ℝ)) (th ls : ℝ) (img : List ℝ)
    (hdist : ∀ p ∈ negs, p.1 ≠ tl)
    (hbeaten : ∃ q ∈ classifyProbs (updateLabels tl te negs) ls img,
        (classifyProbs (updateLabels tl te negs) ls img).headD 0 < q) :
    (detectionOf (updateLabels tl te negs) tl th ls img).isDetected = false := by
  obtain ⟨p0, pt, hp, hlen⟩ := classifyProbs_updateLabels_cons tl te negs ls img
  have hscores := scoresOf_updateLabels_cons tl te negs ls img hp
  obtain ⟨q, hq, hq2⟩ := hbeaten
  rw [hp] at hq hq2
  simp only [List.headD_cons] at hq2
  have hqt : q ∈ pt := by
    rcases List.mem_cons.mp hq with rfl | h
    · exact absurd hq2 (lt_irrefl _)
    · exact h
  obtain ⟨x, hxmem, hxq⟩ := zip_score_surj hlen.symm hqt
  obtain ⟨b, t2, hsort, hbmem, hbmax⟩ :=
    sortByScoreDesc_head_max (scoresOf (updateLabels tl te negs) ls img)
      (by rw [hscores]; simp)
  have hxin : x ∈ scoresOf (updateLabels tl te negs) ls img := by
    rw [hscores]
    exact List.mem_cons_of_mem _ hxmem
  have hbscore : p0 < b.score := by
    have hxb := hbmax x hxin
    rw [hxq] at hxb
    exact lt_of_lt_of_le hq2 hxb
  have hblabel : b.label ≠ tl := by
    rw [hscores] at hbmem
    rcases List.mem_cons.mp hbmem with rfl | hbZ
    · simp at hbscore
    · obtain ⟨pr, hpr, hpr2⟩ := List.mem_map.mp (zip_label_mem hbZ)
      rw [← hpr2]
      exact hdist pr hpr
  have hbeq : (b.label == tl) = false := beq_eq_false_iff_ne.mpr hblabel
  unfold detectionOf
  rw [hsort]
  simp [hbeq]

/-- C1: in detection mode, the returned `isDetected` flag holds exactly
when the target score (the probability at index 0 of the embedding matrix)
is at least the threshold — equality counts as detected — and that
probability is maximal among all labels' probabilities (assuming the
negative labels differ from the target label, as the worker compares by
label name). -/
theorem detection_rule (tl : String) (te : List ℝ) (negs : List (String × List ℝ))
    (th ls : ℝ) (img : List ℝ) (hn : imageNormOf img ≠ 0)
    (hdist : ∀ p ∈ negs, p.1 ≠ tl) :
    ∃ r, classify (updateLabels tl te negs) tl th ls img = some r ∧
      r.targetScore = (classifyProbs (updateLabels tl te negs) ls img).headD 0 ∧
      (r.isDetected = true ↔
        (th ≤ (classifyProbs (updateLabels tl te negs) ls img).headD 0 ∧
          ∀ q ∈ classifyProbs (updateLabels tl te negs) ls img,
            q ≤ (classifyProbs (updateLabels tl te negs) ls img).headD 0)) := by
  refine ⟨detectionOf (updateLabels tl te negs) tl th ls img,
    by simp [classify, hn], detectionOf_targetScore_eq tl te negs th ls img, ?_⟩
  constructor
  · intro hdet
    by_cases hmax : ∀ q ∈ classifyProbs (updateLabels tl te negs) ls img,
        q ≤ (classifyProbs (updateLabels tl te negs) ls img).headD 0
    · refine ⟨?_, hmax⟩
      have heq := detectionOf_isDetected_target_max tl te negs th ls img hmax
      rw [hdet] at heq
      exact of_decide_eq_true heq.symm
    · push_neg at hmax
      have heq := detectionOf_not_detected_of_beaten tl te negs th ls img hdist hmax
      rw [hdet] at heq
      exact absurd heq (by simp)
  · rintro ⟨hth, hmax⟩
    rw [detectionOf_isDetected_target_max tl te negs th ls img hmax]
    exact decide_eq_true hth

/-- Witness for C1: a concrete target/negative configuration with nonzero
image norm and distinct labels. -/
theorem detection_rule_witness :
    imageNormOf [(1 : ℝ)] ≠ 0 ∧
    ∃ r, classify (updateLabels "a" [1] [("b", [0])]) "a" (1 / 4) 100 [1] = some r ∧
      r.targetScore =
        (classifyProbs (updateLabels "a" [1] [("b", [0])]) 100 [1]).headD 0 := by
  refine ⟨imageNormOf_one_ne_zero, ?_⟩
  obtain ⟨r, h1, h2, -⟩ := detection_rule "a" [1] [("b", [0])] (1 / 4) 100 [1]
    imageNormOf_one_ne_zero
    (by
      intro p hp
      rw [List.mem_singleton] at hp
      subst hp
      decide)
  exact ⟨r, h1, h2⟩

theorem exp_over_double (x : ℝ) :
    Real.exp x / (Real.exp x + Real.exp x) = 1 / 2 := by
  rw [← two_mul, div_eq_iff (by positivity : (2 : ℝ) * Real.exp x ≠ 0)]
  ring

theorem tieProbs_eval :
    classifyProbs (updateLabels "a" [1] [("b", [1])]) 100 [1] = [1 / 2, 1 / 2] := by
  have h1 : normalizeBy (imageNormOf [(1 : ℝ)]) [1] = [1] := by
    rw [imageNormOf_one]
    norm_num [normalizeBy]
  have h2 : rawScores ((updateLabels "a" [1] [("b", [1])]).map Prod.snd) [1] =
      [1, 1] := by
    norm_num [updateLabels, rawScores, dotProduct]
  have h3 : actualScale 100 = 100 := by
    norm_num [actualScale]
  unfold classifyProbs
  rw [h1, h2, h3]
  unfold probabilities expScores
  norm_num
  exact exp_over_double _

/-- C4 counterexample: with the target at index 0 and one negative tied
with it at the maximal probability 1/2 (and threshold 1/4), the worker
reports `isDetected = true`: the stable JavaScript sort keeps the target
first on an exact tie, so the tie resolves in favor of the target, not to
not-detected as the claim states. -/
theorem tie_detected_counterexample :
    classifyProbs (updateLabels "a" [1] [("b", [1])]) 100 [1] = [1 / 2, 1 / 2] ∧
    ∃ r, classify (updateLabels "a" [1] [("b", [1])]) "a" (1 / 4) 100 [1] = some r ∧
      r.isDetected = true := by
  refine ⟨tieProbs_eval,
    detectionOf (updateLabels "a" [1] [("b", [1])]) "a" (1 / 4) 100 [1],
    by simp [classify, imageNormOf_one_ne_zero], ?_⟩
  have hmax : ∀ q ∈ classifyProbs (updateLabels "a" [1] [("b", [1])]) 100 [1],
      q ≤ (classifyProbs (updateLabels "a" [1] [("b", [1])]) 100 [1]).headD 0 := by
    intro q hq
    rw [tieProbs_eval] at hq ⊢
    simp only [List.headD_cons]
    simp only [List.mem_cons, List.not_mem_nil, or_false] at hq
    rcases hq with rfl | rfl
    · exact le_refl _
    · exact le_refl _
  rw [detectionOf_isDetected_target_max "a" [1] [("b", [1])] (1 / 4) 100 [1] hmax,
    tieProbs_eval]
  simp only [List.headD_cons]
  exact decide_eq_true (by norm_num)

/-- C4 (amended): whenever the target's probability is greater than or
equal to every label's probability — in particular on an exact tie with a
negative — the stable sort keeps the target (stored at index 0) first, so
the target counts as top-ranked and `isDetected` equals the threshold test
`targetScore ≥ threshold`. -/
theorem tie_favors_target (tl : String) (te : List ℝ)
    (negs : List (String × List ℝ)) (th ls : ℝ) (img : List ℝ)
    (hn : imageNormOf img ≠ 0)
    (hmax : ∀ q ∈ classifyProbs (updateLabels tl te negs) ls img,
        q ≤ (classifyProbs (updateLabels tl te negs) ls img).headD 0) :
    ∃ r, classify (updateLabels tl te negs) tl th ls img = some r ∧
      r.isDetected =
        decide (th ≤ (classifyProbs (updateLabels tl te negs) ls img).headD 0) :=
  ⟨detectionOf (updateLabels tl te negs) tl th ls img, by simp [classify, hn],
    detectionOf_isDetected_target_max tl te negs th ls img hmax⟩

/-- Witness for C4's amended theorem, at the exact-tie input. -/
theorem tie_favors_target_witness :
    ∃ r, classify (updateLabels "a" [1] [("b", [1])]) "a" (1 / 4) 100 [1] = some r ∧
      r.isDetected = decide ((1 : ℝ) / 4 ≤
        (classifyProbs (updateLabels "a" [1] [("b", [1])]) 100 [1]).headD 0) :=
  tie_favors_target "a" [1] [("b", [1])] (1 / 4) 100 [1] imageNormOf_one_ne_zero
    (by
      intro q hq
      rw [tieProbs_eval] at hq ⊢
      simp only [List.headD_cons]
      simp only [List.mem_cons, List.not_mem_nil, or_false] at hq
      rcases hq with rfl | rfl
      · exact le_refl _
      · exact le_refl _)

/-- A detected frame seen in the countdown phase leaves the camera state
unchanged: the detection-results effect returns early and the cancellation
effect only fires on non-detected frames. -/
theorem onDetection_countdown_true (st : Option ℤ) (now : ℤ) :
    onDetection ⟨InspectionPhase.countdown, st⟩ true now =
      ⟨InspectionPhase.countdown, st⟩ := by
  simp [onDetection]

/-- A detected frame seen while sustaining keeps the recorded start and
enters countdown exactly when the elapsed time reaches the window. -/
theorem onDetection_detecting_true (start now : ℤ) :
    onDetection ⟨InspectionPhase.detecting, some start⟩ true now =
      if SUSTAINED_DETECTION_MS ≤ now - start then
        ⟨InspectionPhase.countdown, some start⟩
      else ⟨InspectionPhase.detecting, some start⟩ := by
  by_cases h : SUSTAINED_DETECTION_MS ≤ now - start
  · simp [onDetection, h]
  · simp [onDetection, h]

/-- Closed form of the run over a synthetic all-detected stream: after
`k ≥ 1` frames spaced `dt ≥ 0` apart the machine has recorded the first
frame's timestamp and is in countdown exactly when `(k - 1) * dt` has
reached the sustained-detection window. -/
theorem runDetections_trueStream_closed (dt t0 : ℤ) (hdt : 0 ≤ dt) :
    ∀ k : ℕ, 1 ≤ k →
      runDetections ⟨InspectionPhase.detecting, none⟩ (trueStream k dt t0) =
        if SUSTAINED_DETECTION_MS ≤ ((k : ℤ) - 1) * dt then
          ⟨InspectionPhase.countdown, some t0⟩
        else ⟨InspectionPhase.detecting, some t0⟩ := by
  intro k hk
  induction k with
  | zero => exact absurd hk (by omega)
  | succ n ih =>
    rcases Nat.lt_or_ge n 1 with hn | hn
    · have hn0 : n = 0 := by omega
      subst hn0
      have h1 : trueStream 1 dt t0 = [(true, t0)] := by
        simp [trueStream, List.range_succ]
      rw [h1]
      have hrun : runDetections ⟨InspectionPhase.detecting, none⟩ [(true, t0)] =
          ⟨InspectionPhase.detecting, some t0⟩ := by
        simp [runDetections, onDetection, SUSTAINED_DETECTION_MS]
      rw [hrun, if_neg]
      simp [SUSTAINED_DETECTION_MS]
    · have hsplit : trueStream (n + 1) dt t0 =
          trueStream n dt t0 ++ [(true, t0 + (n : ℤ) * dt)] := by
        unfold trueStream
        rw [List.range_succ, List.map_append]
        simp
      have hfold : runDetections ⟨InspectionPhase.detecting, none⟩ (trueStream (n + 1) dt t0) =
          onDetection (runDetections ⟨InspectionPhase.detecting, none⟩ (trueStream n dt t0))
            true (t0 + (n : ℤ) * dt) := by
        rw [hsplit]
        unfold runDetections
        rw [List.foldl_append]
        rfl
      rw [hfold, ih hn]
      by_cases hc : SUSTAINED_DETECTION_MS ≤ ((n : ℤ) - 1) * dt
      · rw [if_pos hc, onDetection_countdown_true, if_pos]
        have hmono : ((n : ℤ) - 1) * dt ≤ (n : ℤ) * dt :=
          mul_le_mul_of_nonneg_right (by linarith) hdt
        push_cast
        linarith
      · rw [if_neg hc, onDetection_detecting_true]
        have harith : t0 + (n : ℤ) * dt - t0 = (n : ℤ) * dt := by ring
        rw [harith]
        have harith2 : ((n : ℤ) + 1 - 1) * dt = (n : ℤ) * dt := by ring
        push_cast
        rw [harith2]

/-- C2 counterexample: with two detected frames spaced 500 ms apart we have
`k * dt = 1000 ≥ sustainedMs = 1000`, so the claim predicts a transition to
countdown, but the machine is still in the detecting phase: the sustaining
start is recorded at the first detected frame, so only `(k - 1) * dt = 500`
milliseconds have elapsed by the second frame. -/
theorem sustained_stream_claim_fails_at_two_frames :
    SUSTAINED_DETECTION_MS ≤ (2 : ℤ) * 500 ∧
    (runDetections ⟨InspectionPhase.detecting, none⟩ (trueStream 2 500 0)).phase ≠
      InspectionPhase.countdown := by
  constructor
  · decide
  · decide

/-- C2 (amended): for a synthetic stream of `k ≥ 1` detected frames spaced
`dt ≥ 0` milliseconds apart, starting from the detecting phase, the state
machine is in the countdown phase after the stream if and only if
`(k - 1) * dt ≥ sustainedMs` — the elapsed time is measured from the first
detected frame, so `k` frames span `(k - 1) * dt` milliseconds; since the
equivalence holds for every `k`, it holds for every prefix of the stream,
so countdown is not entered at any earlier frame either. -/
theorem sustained_stream_countdown_iff (k : ℕ) (dt t0 : ℤ) (hk : 1 ≤ k)
    (hdt : 0 ≤ dt) :
    (runDetections ⟨InspectionPhase.detecting, none⟩ (trueStream k dt t0)).phase =
      InspectionPhase.countdown ↔ SUSTAINED_DETECTION_MS ≤ ((k : ℤ) - 1) * dt := by
  rw [runDetections_trueStream_closed dt t0 hdt k hk]
  by_cases h : SUSTAINED_DETECTION_MS ≤ ((k : ℤ) - 1) * dt
  · simp [h]
  · simp [h]

/-- Witness for C2's amended theorem: three detected frames 500 ms apart
reach the countdown phase. -/
theorem sustained_stream_countdown_iff_witness :
    (runDetections ⟨InspectionPhase.detecting, none⟩ (trueStream 3 500 0)).phase =
      InspectionPhase.countdown :=
  (sustained_stream_countdown_iff 3 500 0 (by decide) (by decide)).mpr (by decide)

/-- C3 counterexample: the store re-derives detection as
`score >= threshold`, ignoring the worker's `isDetected` flag. Two frames
with `isDetected = false` but `targetScore = threshold = 1/2` (target above
threshold yet outranked by a negative), 1100 ms apart, first make the store
record `sustainedDetectionStart` and then set the phase to `countdown`: the
machine does not end in the detecting phase and the sustaining timestamp is
retained, not discarded. -/
theorem false_frame_resets_counterexample :
    (onDetectionFull (onDetectionFull
        ⟨⟨InspectionPhase.detecting, false, none⟩, none, false⟩
        false (1 / 2) (1 / 2) 5)
      false (1 / 2) (1 / 2) 1105).store.phase = InspectionPhase.countdown ∧
    (onDetectionFull (onDetectionFull
        ⟨⟨InspectionPhase.detecting, false, none⟩, none, false⟩
        false (1 / 2) (1 / 2) 5)
      false (1 / 2) (1 / 2) 1105).store.sustainedDetectionStart = some 5 := by
  have h1 : onDetectionFull
      ⟨⟨InspectionPhase.detecting, false, none⟩, none, false⟩
      false (1 / 2) (1 / 2) 5 =
      ⟨⟨InspectionPhase.detecting, true, some 5⟩, none, false⟩ := by
    norm_num [onDetectionFull, updateDetection]
  have h2 : onDetectionFull
      ⟨⟨InspectionPhase.detecting, true, some 5⟩, none, false⟩
      false (1 / 2) (1 / 2) 1105 =
      ⟨⟨InspectionPhase.countdown, true, some 5⟩, none, false⟩ := by
    norm_num [onDetectionFull, updateDetection, SUSTAINED_DETECTION_MS]
  rw [h1, h2]
  exact ⟨rfl, rfl⟩

/-- C3 (amended): a frame with `isDetected = false` and
`targetScore < threshold` does reset: from the detecting/sustaining phase
the machine stays in `detecting` with the store's detected flag cleared and
both sustaining timestamps (the component ref and the store's start)
discarded; from an actively running countdown the countdown is cancelled
and the machine returns to `detecting` with the component's sustaining ref
discarded, while the store's own detected flag and sustaining start are
left untouched, since the store update is skipped outside the detecting
phase. A false frame with `targetScore ≥ threshold` is instead treated as
detected by the store's score re-derivation and does not reset it. -/
theorem false_frame_below_threshold_resets (s : MachineState)
    (score th : ℝ) (now : ℤ) (hscore : score < th) :
    (s.store.phase = InspectionPhase.detecting →
      onDetectionFull s false score th now =
        ⟨⟨InspectionPhase.detecting, false, none⟩, none, false⟩) ∧
    (s.store.phase = InspectionPhase.countdown → s.countdownActive = true →
      onDetectionFull s false score th now =
        ⟨⟨InspectionPhase.detecting, s.store.isDetected,
          s.store.sustainedDetectionStart⟩, none, false⟩) := by
  obtain ⟨⟨ph, sid, sst⟩, ref, cd⟩ := s
  have hnle : ¬ th ≤ score := not_le.mpr hscore
  constructor
  · intro h
    subst h
    cases cd
    · simp [onDetectionFull, updateDetection, hnle]
    · simp [onDetectionFull, updateDetection, hnle]
  · intro h hcd
    subst h
    subst hcd
    simp [onDetectionFull, updateDetection, hnle]

/-- Witness for C3's amended theorem: a below-threshold false frame resets
from the sustaining state and cancels an active countdown, leaving the
store's tracker untouched in the countdown case. -/
theorem false_frame_below_threshold_resets_witness :
    onDetectionFull ⟨⟨InspectionPhase.detecting, true, some 5⟩, some 5, false⟩
        false (1 / 4) (1 / 2) 600 =
      ⟨⟨InspectionPhase.detecting, false, none⟩, none, false⟩ ∧
    onDetectionFull ⟨⟨InspectionPhase.countdown, true, some 5⟩, some 5, true⟩
        false (1 / 4) (1 / 2) 600 =
      ⟨⟨InspectionPhase.detecting, true, some 5⟩, none, false⟩ :=
  ⟨(false_frame_below_threshold_resets
      ⟨⟨InspectionPhase.detecting, true, some 5⟩, some 5, false⟩
      (1 / 4) (1 / 2) 600 (by norm_num)).1 rfl,
   (false_frame_below_threshold_resets
      ⟨⟨InspectionPhase.countdown, true, some 5⟩, some 5, true⟩
      (1 / 4) (1 / 2) 600 (by norm_num)).2 rfl rfl⟩

/-- C6: a classify request whose image embedding has exactly zero L2 norm
produces no detection message of any kind — the frame is discarded before
any score is computed and no error is surfaced. -/
theorem zero_norm_frame_skipped (labels : List (String × List ℝ)) (tl : String)
    (th ls : ℝ) (img : List ℝ) (h : imageNormOf img = 0) :
    classify labels tl th ls img = none := by
  simp [classify, h]

/-- Witness for C6: the all-zero embedding is skipped. -/
theorem zero_norm_frame_skipped_witness :
    classify [("cup", [1])] "cup" (1 / 2) 100 [0] = none :=
  zero_norm_frame_skipped _ _ _ _ _ (by simp [imageNormOf, sumSquares])

/-- C7: two `initialize` calls processed concurrently before the model load
resolves start the underlying load exactly once and lead to exactly one
terminal broadcast (`ready` on success, `error` on failure), which every
waiting caller observes; moreover a call made while the executor is already
ready is a no-op that re-posts the same `ready` outcome. -/
theorem initialize_idempotent_once (success : Bool) :
    ((twoCallerTrace success).1.loadCount = 1 ∧
      (twoCallerTrace success).2 =
        [if success then InitMsg.ready else InitMsg.error]) ∧
    ∀ n : ℕ, initializeCall ⟨true, false, n⟩ = (⟨true, false, n⟩, [InitMsg.ready]) := by
  refine ⟨?_, fun n => rfl⟩
  cases success
  · exact ⟨rfl, rfl⟩
  · exact ⟨rfl, rfl⟩

/-- The hook invariant: the number of in-flight classifications never
exceeds one, and it is zero whenever the in-flight flag is clear. -/
theorem runHook_foldl_inv (events : List HookEvent) :
    ∀ p : HookState × ℕ, p.2 ≤ 1 → (p.1.inferring = false → p.2 = 0) →
      (events.foldl hookStep p).2 ≤ 1 ∧
        ((events.foldl hookStep p).1.inferring = false →
          (events.foldl hookStep p).2 = 0) := by
  induction events with
  | nil => exact fun p h1 h2 => ⟨h1, h2⟩
  | cons e rest ih =>
    intro p h1 h2
    rw [List.foldl_cons]
    cases e with
    | request =>
      apply ih
      · by_cases hb : (!p.1.isReady || p.1.inferring) = true
        · simp [hookStep, classifyCall, hb]
          exact h1
        · have hfb : (!p.1.isReady || p.1.inferring) = false := by
            simpa using hb
          have hinf : p.1.inferring = false := (Bool.or_eq_false_iff.mp hfb).2
          simp [hookStep, classifyCall, hb, h2 hinf]
      · by_cases hb : (!p.1.isReady || p.1.inferring) = true
        · simp [hookStep, classifyCall, hb]
          exact h2
        · simp [hookStep, classifyCall, hb]
    | response =>
      apply ih
      · simp [hookStep, onDetectionMsg]
        omega
      · simp [hookStep, onDetectionMsg]
        omega

/-- C8: a classify request submitted while a previous classification is
still in flight is dropped — the callback returns with the state unchanged
and sends nothing to the worker — and consequently, over every event
sequence, at most one classification is ever in flight. -/
theorem classify_drop_not_queue :
    (∀ s : HookState, s.inferring = true → classifyCall s = (s, false)) ∧
    ∀ events : List HookEvent, (runHook events).2 ≤ 1 := by
  constructor
  · intro s h
    simp [classifyCall, h]
  · intro events
    exact (runHook_foldl_inv events ({ isReady := true, inferring := false }, 0)
      (by omega) (fun _ => rfl)).1

/-- Witness for C8: a request during an in-flight classification is
dropped, and a burst of requests keeps at most one in flight. -/
theorem classify_drop_not_queue_witness :
    classifyCall ⟨true, true⟩ = (⟨true, true⟩, false) ∧
    (runHook [HookEvent.request, HookEvent.request, HookEvent.response]).2 ≤ 1 :=
  ⟨classify_drop_not_queue.1 ⟨true, true⟩ rfl, classify_drop_not_queue.2 _⟩

end Inspection
